import Mathlib

/-!
Verification of the platform-detection and path-rewrite core of the
Xget URL converter (src/createSampleUrl.js, second unit of the file:
`detectPlatform`, `adjustPathForPlatform`, `performUrlConversion`,
`getXgetDomain`, `handleUrlInput`).

Strings are modelled through their character lists, and the handful of
JavaScript string primitives the code uses (`split`, `includes`,
`startsWith`, `endsWith`, `toLowerCase`, anchored regex replacement)
are embedded as total functions over `List Char`.  The browser `URL`
constructor is modelled by `urlHostname` (the code only ever consumes
`new URL(s).hostname`, and treats a constructor throw as parse
failure).
-/

set_option autoImplicit false

namespace Xuc

/-! ### Character-list primitives mirroring the JavaScript string API -/

/-- ASCII lower-casing of one character.  This matches both
`String.prototype.toLowerCase` and the `i` regex flag on the ASCII
inputs that URL pathnames and hostnames consist of (the URL parser
percent-encodes or punycodes everything else). -/
def charLower (c : Char) : Char :=
  if 'A' ≤ c ∧ c ≤ 'Z' then Char.ofNat (c.toNat + 32) else c

/-- Does the list `l` begin with the list `p`?  Models
`String.prototype.startsWith`. -/
def listStartsWith : List Char → List Char → Bool
  | _, [] => true
  | [], _ :: _ => false
  | x :: xs, y :: ys => x = y && listStartsWith xs ys

/-- Does the list `l` end with the list `s`?  Models
`String.prototype.endsWith`. -/
def listEndsWith (l s : List Char) : Bool :=
  listStartsWith l.reverse s.reverse

/-- Does `needle` occur contiguously inside `hay`?  Models
`String.prototype.includes`. -/
def containsList (hay needle : List Char) : Bool :=
  match hay with
  | [] => listStartsWith [] needle
  | x :: xs => listStartsWith (x :: xs) needle || containsList xs needle

/-- Splitting on a one-character separator, as in JavaScript
`s.split("/")`: the result is always non-empty and the separators are
dropped. -/
def splitChar (c : Char) : List Char → List (List Char)
  | [] => [[]]
  | x :: xs =>
    match splitChar c xs with
    | [] => [[]]
    | r :: rs => if x = c then [] :: r :: rs else (x :: r) :: rs

/-- Join with a one-character separator, as in JavaScript
`parts.join("/")`; left inverse of `splitChar`. -/
def joinSep (c : Char) : List (List Char) → List Char
  | [] => []
  | [x] => x
  | x :: y :: t => x ++ c :: joinSep c (y :: t)

/-- Split `l` at the first occurrence of the (non-empty) separator
`sep`, returning the pieces before and after it, or `none` when `sep`
does not occur. -/
def splitOnFirst (sep : List Char) : List Char → Option (List Char × List Char)
  | [] => if sep = [] then some ([], []) else none
  | x :: xs =>
    if listStartsWith (x :: xs) sep then some ([], (x :: xs).drop sep.length)
    else
      match splitOnFirst sep xs with
      | some (a, b) => some (x :: a, b)
      | none => none

/-! ### String-level wrappers -/

/-- Models `String.prototype.startsWith`. -/
def strStartsWith (s p : String) : Bool :=
  listStartsWith s.data p.data

/-- Models `String.prototype.includes`. -/
def strIncludes (s sub : String) : Bool :=
  containsList s.data sub.data

/-- Models `String.prototype.toLowerCase` on ASCII data. -/
def lowerStr (s : String) : String :=
  ⟨s.data.map charLower⟩

/-! ### The browser URL constructor, modelled by its hostname output

The core code uses `new URL(s)` in exactly two ways: it either throws
(malformed URL) or yields an object whose `.hostname` field is read.
`urlHostname` embeds that interface for the scheme-and-authority URL
shapes this application deals in: `none` models a constructor throw,
`some h` models success with hostname `h` (lower-cased, as the browser
normalises it). -/

/-- Is `scheme` a plausible URL scheme: non-empty, starting with a
letter, containing only letters, digits, `+`, `-`, `.`? -/
def schemeOk (scheme : List Char) : Bool :=
  match scheme with
  | [] => false
  | c :: _ =>
    c.isAlpha && scheme.all (fun a => a.isAlphanum || a = '+' || a = '-' || a = '.')

/-- Drop a `userinfo@` part: keep everything after the last `@`. -/
def afterLastAt (l : List Char) : List Char :=
  (l.reverse.takeWhile (fun c => c ≠ '@')).reverse

/-- Models `new URL(s).hostname`; `none` models the constructor
throwing on input that is not a syntactically valid absolute URL. -/
def urlHostname (s : String) : Option String :=
  match splitOnFirst "://".data s.data with
  | none => none
  | some (scheme, rest) =>
    if schemeOk scheme then
      let authority := rest.takeWhile (fun c => c ≠ '/' && c ≠ '?' && c ≠ '#')
      let host := (afterLastAt authority).takeWhile (fun c => c ≠ ':')
      if host = [] then none else some ⟨host.map charLower⟩
    else none

/-! ### Data model -/

/-- The parsed-URL record produced by the browser constructor, with
the fields a `URL` object carries.  `detectPlatform` reads only
`hostname` and `pathname`; `performUrlConversion` additionally reads
`search`. -/
structure ParsedUrl where
  protocol : String
  username : String
  password : String
  hostname : String
  port : String
  pathname : String
  search : String
  hash : String
deriving DecidableEq

/-- The platform object returned by `detectPlatform`:
`{ key, name, baseUrl }`. -/
structure Platform where
  key : String
  name : String
  baseUrl : String
deriving DecidableEq

/-- Source `getPlatformDisplayName`: currently returns the key. -/
def getPlatformDisplayName (key _url : String) : String := key

/-! ### detectPlatform (source lines 483-588)

The registry `platformsData` is a list of `(key, baseUrl)` pairs in
insertion order, as produced by `Object.entries`.  Each of the three
scanning loops of the source becomes one recursive function; a
registry entry whose `baseUrl` fails to parse is skipped, mirroring
the `try/catch { continue; }` around `new URL(baseUrl)`. -/

/-- Priority 1 loop: exact hostname match. -/
def exactHostMatch : List (String × String) → String → Option Platform
  | [], _ => none
  | (key, baseUrl) :: rest, hostname =>
    match urlHostname baseUrl with
    | none => exactHostMatch rest hostname
    | some h =>
      if hostname = h then
        some ⟨key, getPlatformDisplayName key baseUrl, baseUrl⟩
      else exactHostMatch rest hostname

/-- Priority 3 loop: `hostname.endsWith("." + baseUrlObj.hostname)`. -/
def subdomainMatch : List (String × String) → String → Option Platform
  | [], _ => none
  | (key, baseUrl) :: rest, hostname =>
    match urlHostname baseUrl with
    | none => subdomainMatch rest hostname
    | some h =>
      if listEndsWith hostname.data ('.' :: h.data) then
        some ⟨key, getPlatformDisplayName key baseUrl, baseUrl⟩
      else subdomainMatch rest hostname

/-- Source expression `hostname.split(".").slice(-2).join(".")`:
the last two dot-separated labels. -/
def lastTwoLabels (h : String) : String :=
  let parts := splitChar '.' h.data
  ⟨joinSep '.' (parts.drop (parts.length - 2))⟩

/-- Priority 4 loop: last-two-labels base-domain comparison. -/
def baseDomainMatch : List (String × String) → String → Option Platform
  | [], _ => none
  | (key, baseUrl) :: rest, hostname =>
    match urlHostname baseUrl with
    | none => baseDomainMatch rest hostname
    | some h =>
      if lastTwoLabels h = lastTwoLabels hostname
          && (lastTwoLabels h).data.contains '.' then
        some ⟨key, getPlatformDisplayName key baseUrl, baseUrl⟩
      else baseDomainMatch rest hostname

/-- Source `detectPlatform` on an already-parsed URL: exact hostname
tier, then the hard-coded `ghcr.io` and `github.com` routing, then the
subdomain tier, then the base-domain tier. -/
def detectPlatform (platformsData : List (String × String)) (urlObj : ParsedUrl) :
    Option Platform :=
  let hostname := urlObj.hostname
  let pathname := urlObj.pathname
  match exactHostMatch platformsData hostname with
  | some p => some p
  | none =>
    if hostname = "ghcr.io" then
      if strIncludes pathname "/v2/homebrew/" then
        some ⟨"homebrew-bottles",
          getPlatformDisplayName "homebrew-bottles" "https://ghcr.io",
          "https://ghcr.io"⟩
      else
        some ⟨"cr-ghcr", getPlatformDisplayName "cr-ghcr" "https://ghcr.io",
          "https://ghcr.io"⟩
    else if hostname = "github.com" then
      if strStartsWith (lowerStr pathname) "/homebrew/" then
        some ⟨"homebrew",
          getPlatformDisplayName "homebrew" "https://github.com/Homebrew",
          "https://github.com/Homebrew"⟩
      else
        some ⟨"gh", getPlatformDisplayName "gh" "https://github.com",
          "https://github.com"⟩
    else
      match subdomainMatch platformsData hostname with
      | some p => some p
      | none => baseDomainMatch platformsData hostname

/-! ### adjustPathForPlatform (source lines 648-704) -/

/-- The source regex `^\/([^\/]+)\/([^\/]+)\/blob\/(.+)$`: a leading
slash, a non-empty slash-free owner, a slash, a non-empty slash-free
repo, the literal `/blob/`, then a non-empty remainder.  (JavaScript
`.` excludes line terminators, but URL-derived paths never contain
them, so the model treats `.` as any character.) -/
def matchBlob (path : String) : Option (String × String × String) :=
  match splitChar '/' path.data with
  | [] :: (o :: os) :: (r :: rs) :: seg3 :: rest =>
    if seg3 = "blob".data ∧ rest ≠ [] ∧ joinSep '/' rest ≠ [] then
      some (⟨o :: os⟩, ⟨r :: rs⟩, ⟨joinSep '/' rest⟩)
    else none
  | _ => none

/-- The source regex replacement `path.replace(/^\/[Hh]omebrew/i, "")`
respectively `path.replace(/^\/api/i, "")`: strip the given
(lower-case) pattern from the front of the path when the first
`pat.length` characters match it case-insensitively; otherwise leave
the path unchanged.  The pattern is anchored, so only the first
occurrence and only at the path start is affected. -/
def stripCaseless (pat : String) (s : String) : String :=
  if (s.data.take pat.data.length).map charLower = pat.data then
    ⟨s.data.drop pat.data.length⟩
  else s

/-- The first `/`-separated segment of a blob remainder — the branch
name as described in §4.2. -/
def branchSeg (rest : String) : String :=
  ⟨(splitChar '/' rest.data).headD []⟩

/-- The remaining `/`-separated segments of a blob remainder joined
with `/` — the file path as described in §4.2 (empty when the
remainder has a single segment). -/
def fileSegs (rest : String) : String :=
  ⟨joinSep '/' (splitChar '/' rest.data).tail⟩

/-- Source `adjustPathForPlatform` (the `urlObj` parameter of the
source function is unused by its body and is omitted): GitHub
blob-to-raw rewriting for `gh`, leading-`/homebrew` stripping for
`homebrew`, leading-`/api` stripping for `homebrew-api`, then the
final leading-slash normalisation. -/
def adjustPathForPlatform (path0 platformKey : String) : String :=
  let path1 :=
    if platformKey = "gh" then
      match matchBlob path0 with
      | some (owner, repo, branchAndFile) =>
        match splitChar '/' branchAndFile.data with
        | [] => path0
        | b :: ts =>
          if ts = [] then
            "/" ++ owner ++ "/" ++ repo ++ "/raw/refs/heads/" ++ (⟨b⟩ : String) ++ "/"
          else
            "/" ++ owner ++ "/" ++ repo ++ "/raw/refs/heads/" ++ (⟨b⟩ : String)
              ++ "/" ++ (⟨joinSep '/' ts⟩ : String)
      | none => path0
    else path0
  let path2 :=
    if platformKey = "homebrew" then
      let p := stripCaseless "/homebrew" path1
      if p = "" ∨ p = "/" then "" else p
    else path1
  let path3 :=
    if platformKey = "homebrew-api" then
      let p := stripCaseless "/api" path2
      if p = "" ∨ p = "/" then "" else p
    else path2
  if strStartsWith path3 "/" = false ∧ path3 ≠ "" then "/" ++ path3 else path3

/-! ### URL composition (source lines 278-289 and 602-638) -/

/-- Source `getXgetDomain`, line 284: `domain.replace(/\/$/, "")` —
remove one trailing slash when present.  (The surrounding validation
and default fall-back of `getXgetDomain` belong to the caller side of
the §4.3 contract, which receives an already-validated gateway
domain.) -/
def stripTrailingSlash (domain : String) : String :=
  if domain.data.getLast? = some '/' then ⟨domain.data.dropLast⟩ else domain

/-- The template literal of source line 625,
`xgetUrl = gatewayDomain + "/" + platformKey + path`, together with
the trailing-slash strip the gateway domain undergoes first. -/
def composeUrl (gatewayDomain platformKey path : String) : String :=
  stripTrailingSlash gatewayDomain ++ "/" ++ platformKey ++ path

/-- Source `performUrlConversion` on an already-parsed URL: base path
= pathname, plus the raw query string when non-empty, then the
platform adjustment, then composition with the gateway domain. -/
def performUrlConversion (gatewayDomain : String) (urlObj : ParsedUrl)
    (detectedPlatform : Platform) : String :=
  let path0 := urlObj.pathname
  let path1 := if urlObj.search ≠ "" then path0 ++ urlObj.search else path0
  let path2 := adjustPathForPlatform path1 detectedPlatform.key
  composeUrl gatewayDomain detectedPlatform.key path2

/-- The rewritten path alone (the PathRewriter output of §4.2). -/
def rewrittenPath (urlObj : ParsedUrl) (platformKey : String) : String :=
  adjustPathForPlatform
    (if urlObj.search ≠ "" then urlObj.pathname ++ urlObj.search else urlObj.pathname)
    platformKey

/-! ### handleUrlInput (source lines 433-461)

The distinct user-visible outcomes of the conversion pipeline.  The
browser URL constructor is modelled by its outcome: the `parsed`
argument is `none` when `new URL(url)` throws (so `isValidUrl` is
false) and `some urlObj` when it succeeds; `isValidUrl` and
`detectPlatform` parse the same input string, hence observe the same
outcome. -/
inductive ConversionOutcome where
  | invalidUrl
  | unsupported
  | converted (platform : Platform) (xgetUrl : String)
deriving DecidableEq

/-- Source `handleUrlInput` for a non-empty input: invalid URL and
unrecognised platform are distinct terminal outcomes; otherwise the
conversion runs.  Every branch returns a value — no exception escapes. -/
def handleUrl (platformsData : List (String × String)) (gatewayDomain : String)
    (parsed : Option ParsedUrl) : ConversionOutcome :=
  match parsed with
  | none => ConversionOutcome.invalidUrl
  | some urlObj =>
    match detectPlatform platformsData urlObj with
    | none => ConversionOutcome.unsupported
    | some p =>
      ConversionOutcome.converted p (performUrlConversion gatewayDomain urlObj p)

/-! ## Helper lemmas -/

theorem data_append (a b : String) : (a ++ b).data = a.data ++ b.data := rfl

theorem listStartsWith_nil (l : List Char) : listStartsWith l [] = true := by
  cases l <;> rfl

theorem strStartsWith_slash_cons (s : String) :
    strStartsWith ("/" ++ s) "/" = true := by
  show listStartsWith (('/' : Char) :: s.data) ['/'] = true
  simp [listStartsWith]

/-! ## C6: the rewritten path is empty or starts with a slash -/

theorem norm_empty_or_slash (q : String) :
    (if strStartsWith q "/" = false ∧ q ≠ "" then "/" ++ q else q) = "" ∨
      strStartsWith (if strStartsWith q "/" = false ∧ q ≠ "" then "/" ++ q else q)
        "/" = true := by
  split
  · exact Or.inr (strStartsWith_slash_cons _)
  · next h =>
    rcases not_and_or.mp h with h1 | h2
    · simp only [Bool.not_eq_false] at h1
      exact Or.inr h1
    · exact Or.inl (not_not.mp h2)

theorem adjust_empty_or_slash (p k : String) :
    adjustPathForPlatform p k = "" ∨
      strStartsWith (adjustPathForPlatform p k) "/" = true :=
  norm_empty_or_slash _

/-- C6: for every platform identifier and every parsed input URL, the
string returned by the path rewriter is either the empty string or
begins with the character `/`. -/
theorem rewrite_root_or_slash (urlObj : ParsedUrl) (platformKey : String) :
    rewrittenPath urlObj platformKey = "" ∨
      strStartsWith (rewrittenPath urlObj platformKey) "/" = true :=
  adjust_empty_or_slash _ _

/-! ## C7: URL composition is trailing-slash stripping plus concatenation -/

/-- C7: composition strips a trailing `/` from the gateway domain and
returns exactly the concatenation `gatewayDomain/identifier` followed
by the rewritten path, with the identifier used verbatim. -/
theorem compose_concat (g identifier path : String) :
    composeUrl (g ++ "/") identifier path = g ++ "/" ++ identifier ++ path ∧
      (g.data.getLast? ≠ some '/' →
        composeUrl g identifier path = g ++ "/" ++ identifier ++ path) := by
  constructor
  · show stripTrailingSlash (g ++ "/") ++ "/" ++ identifier ++ path = _
    have h : stripTrailingSlash (g ++ "/") = g := by
      unfold stripTrailingSlash
      rw [data_append]
      show (if (g.data ++ ['/']).getLast? = some '/' then _ else _) = g
      rw [List.getLast?_concat, if_pos rfl, List.dropLast_concat]
    rw [h]
  · intro hg
    show stripTrailingSlash g ++ "/" ++ identifier ++ path = _
    unfold stripTrailingSlash
    rw [if_neg hg]

theorem compose_concat_witness :
    composeUrl "https://gw.example/" "gh" "/owner/repo" =
        "https://gw.example/gh/owner/repo" ∧
      (("https://gw.example" : String).data.getLast? ≠ some '/' ∧
        composeUrl "https://gw.example" "gh" "/owner/repo" =
          "https://gw.example/gh/owner/repo") := by
  refine ⟨?_, by decide, ?_⟩
  · have h := (compose_concat "https://gw.example" "gh" "/owner/repo").1
    rw [show ("https://gw.example" ++ "/" : String) = "https://gw.example/" from rfl] at h
    rw [h]; rfl
  · have h := (compose_concat "https://gw.example" "gh" "/owner/repo").2 (by decide)
    rw [h]; rfl

/-! ## C8: a malformed input URL is a distinct error outcome -/

/-- C8: for every registry and gateway domain, an input string on
which the URL constructor throws (modelled by `parsed = none`, which
is exactly when `isValidUrl` is false) yields the `invalidUrl`
outcome, which is distinct from the `unsupported` (no-match) outcome;
`handleUrl` is total, so no exception escapes the core boundary. -/
theorem invalid_url_outcome (platformsData : List (String × String))
    (gatewayDomain : String) :
    handleUrl platformsData gatewayDomain none = ConversionOutcome.invalidUrl ∧
      ConversionOutcome.invalidUrl ≠ ConversionOutcome.unsupported :=
  ⟨rfl, by decide⟩

/-! ## C10: detection reads only hostname and pathname -/

/-- C10: two parsed URLs with the same hostname and the same pathname
are matched identically — scheme, port, query, fragment and userinfo
never influence platform detection. -/
theorem detect_depends_only_on_host_path (reg : List (String × String))
    (u v : ParsedUrl) (hh : u.hostname = v.hostname)
    (hp : u.pathname = v.pathname) :
    detectPlatform reg u = detectPlatform reg v := by
  unfold detectPlatform
  rw [hh, hp]

theorem detect_depends_only_on_host_path_witness :
    detectPlatform [("npm", "https://registry.npmjs.org")]
        ⟨"https:", "", "", "registry.npmjs.org", "", "/react", "", ""⟩ =
      detectPlatform [("npm", "https://registry.npmjs.org")]
        ⟨"ftp:", "alice", "hunter2", "registry.npmjs.org", "8080", "/react",
          "?dl=1", "#frag"⟩ :=
  detect_depends_only_on_host_path _ _ _ rfl rfl

/-! ## Tier-1 scan lemmas -/

theorem exact_none_of_forall (reg : List (String × String)) (host : String)
    (h : ∀ kv ∈ reg, urlHostname kv.2 ≠ some host) :
    exactHostMatch reg host = none := by
  induction reg with
  | nil => rfl
  | cons kv rest ih =>
    obtain ⟨k, b⟩ := kv
    have hrest := ih fun x hx => h x (List.mem_cons_of_mem _ hx)
    cases hb : urlHostname b with
    | none => simpa [exactHostMatch, hb] using hrest
    | some hh =>
      have hne : host ≠ hh := fun e => h (k, b) (List.mem_cons_self _ _) (by rw [hb, e])
      simpa [exactHostMatch, hb, hne] using hrest

theorem exact_some_of_exists (reg : List (String × String)) (host : String)
    (h : ∃ kv ∈ reg, urlHostname kv.2 = some host) :
    ∃ kv ∈ reg, urlHostname kv.2 = some host ∧
      exactHostMatch reg host = some ⟨kv.1, kv.1, kv.2⟩ := by
  induction reg with
  | nil => simp at h
  | cons kv rest ih =>
    obtain ⟨k, b⟩ := kv
    cases hb : urlHostname b with
    | some hh =>
      by_cases he : host = hh
      · exact ⟨(k, b), List.mem_cons_self _ _, by rw [hb, he],
          by simp [exactHostMatch, hb, he, getPlatformDisplayName]⟩
      · obtain ⟨kv, hmem, hkv⟩ := h
        rcases List.mem_cons.mp hmem with rfl | hmem'
        · exact absurd (by rw [hkv] at hb; exact Option.some.inj hb) he
        · obtain ⟨kv', hmem'', h1, h2⟩ := ih ⟨kv, hmem', hkv⟩
          exact ⟨kv', List.mem_cons_of_mem _ hmem'', h1,
            by simpa [exactHostMatch, hb, he] using h2⟩
    | none =>
      obtain ⟨kv, hmem, hkv⟩ := h
      rcases List.mem_cons.mp hmem with rfl | hmem'
      · rw [hkv] at hb; exact absurd hb (by simp)
      · obtain ⟨kv', hmem'', h1, h2⟩ := ih ⟨kv, hmem', hkv⟩
        exact ⟨kv', List.mem_cons_of_mem _ hmem'', h1,
          by simpa [exactHostMatch, hb] using h2⟩

/-! ## C1: the exact-hostname tier outranks the later tiers -/

/-- C1: whenever some registry entry's base-URL hostname equals the
target hostname exactly, `detectPlatform` returns such an entry (as
`{key, name, baseUrl}` with the display name equal to the key), even
if a subdomain or base-domain match also exists for the same input —
the exact tier is scanned first and the first hit wins. -/
theorem exact_hostname_tier_wins (reg : List (String × String)) (u : ParsedUrl)
    (h : ∃ kv ∈ reg, urlHostname kv.2 = some u.hostname) :
    ∃ kv ∈ reg, urlHostname kv.2 = some u.hostname ∧
      detectPlatform reg u = some ⟨kv.1, kv.1, kv.2⟩ := by
  obtain ⟨kv, hmem, h1, h2⟩ := exact_some_of_exists reg u.hostname h
  refine ⟨kv, hmem, h1, ?_⟩
  simp only [detectPlatform]
  rw [h2]

theorem exact_hostname_tier_wins_witness :
    ∃ kv ∈ [("sub", "https://x.example.com"), ("base", "https://example.com")],
      urlHostname kv.2 =
          some (ParsedUrl.hostname
            ⟨"https:", "", "", "x.example.com", "", "/file", "", ""⟩) ∧
        detectPlatform
            [("sub", "https://x.example.com"), ("base", "https://example.com")]
            ⟨"https:", "", "", "x.example.com", "", "/file", "", ""⟩ =
          some ⟨kv.1, kv.1, kv.2⟩ :=
  exact_hostname_tier_wins _ _ (by decide)

/-! ## C3: path-based routing for ghcr.io -/

/-- C3: when no registry entry matches the hostname exactly and the
hostname is `ghcr.io`, detection routes to `homebrew-bottles` (base
`https://ghcr.io`) when the pathname contains `/v2/homebrew/` and to
`cr-ghcr` (base `https://ghcr.io`) otherwise. -/
theorem ghcr_path_routing (reg : List (String × String)) (u : ParsedUrl)
    (hexact : ∀ kv ∈ reg, urlHostname kv.2 ≠ some u.hostname)
    (hhost : u.hostname = "ghcr.io") :
    detectPlatform reg u =
      some (if strIncludes u.pathname "/v2/homebrew/" then
          ⟨"homebrew-bottles", "homebrew-bottles", "https://ghcr.io"⟩
        else ⟨"cr-ghcr", "cr-ghcr", "https://ghcr.io"⟩) := by
  simp only [detectPlatform]
  rw [exact_none_of_forall reg u.hostname hexact, hhost]
  by_cases hp : strIncludes u.pathname "/v2/homebrew/" = true
  · simp [hp, getPlatformDisplayName]
  · simp [Bool.not_eq_true] at hp
    simp [hp, getPlatformDisplayName]

theorem ghcr_path_routing_witness :
    detectPlatform [("x", "https://example.org")]
        ⟨"https:", "", "", "ghcr.io", "", "/v2/homebrew/blobs/sha256", "", ""⟩ =
      some ⟨"homebrew-bottles", "homebrew-bottles", "https://ghcr.io"⟩ := by
  rw [ghcr_path_routing [("x", "https://example.org")]
    ⟨"https:", "", "", "ghcr.io", "", "/v2/homebrew/blobs/sha256", "", ""⟩
    (by decide) rfl]
  decide

/-! ## C4: path-based routing for github.com -/

/-- C4: when no registry entry matches the hostname exactly and the
hostname is `github.com`, detection routes to `homebrew` (base
`https://github.com/Homebrew`) when the pathname starts with
`/homebrew/` case-insensitively and to `gh` (base
`https://github.com`) otherwise. -/
theorem github_path_routing (reg : List (String × String)) (u : ParsedUrl)
    (hexact : ∀ kv ∈ reg, urlHostname kv.2 ≠ some u.hostname)
    (hhost : u.hostname = "github.com") :
    detectPlatform reg u =
      some (if strStartsWith (lowerStr u.pathname) "/homebrew/" then
          ⟨"homebrew", "homebrew", "https://github.com/Homebrew"⟩
        else ⟨"gh", "gh", "https://github.com"⟩) := by
  simp only [detectPlatform]
  rw [exact_none_of_forall reg u.hostname hexact, hhost]
  by_cases hp : strStartsWith (lowerStr u.pathname) "/homebrew/" = true
  · simp [hp, getPlatformDisplayName]
  · simp [Bool.not_eq_true] at hp
    simp [hp, getPlatformDisplayName]

theorem github_path_routing_witness :
    detectPlatform [("x", "https://example.org")]
        ⟨"https:", "", "", "github.com", "", "/Homebrew/core", "", ""⟩ =
      some ⟨"homebrew", "homebrew", "https://github.com/Homebrew"⟩ ∧
    detectPlatform [("x", "https://example.org")]
        ⟨"https:", "", "", "github.com", "", "/torvalds/linux", "", ""⟩ =
      some ⟨"gh", "gh", "https://github.com"⟩ := by
  constructor
  · rw [github_path_routing [("x", "https://example.org")]
      ⟨"https:", "", "", "github.com", "", "/Homebrew/core", "", ""⟩
      (by decide) rfl]
    decide
  · rw [github_path_routing [("x", "https://example.org")]
      ⟨"https:", "", "", "github.com", "", "/torvalds/linux", "", ""⟩
      (by decide) rfl]
    decide

/-! ## C9: registry entries with unparseable base URLs are skipped -/

theorem exact_skip (k b : String) (hb : urlHostname b = none)
    (pre post : List (String × String)) (host : String) :
    exactHostMatch (pre ++ (k, b) :: post) host = exactHostMatch (pre ++ post) host := by
  induction pre with
  | nil => simp [exactHostMatch, hb]
  | cons hd tl ih =>
    obtain ⟨k', b'⟩ := hd
    cases hb' : urlHostname b' with
    | none => simpa [exactHostMatch, hb'] using ih
    | some hh => by_cases he : host = hh <;> simp [exactHostMatch, hb', he, ih]

theorem subdomain_skip (k b : String) (hb : urlHostname b = none)
    (pre post : List (String × String)) (host : String) :
    subdomainMatch (pre ++ (k, b) :: post) host = subdomainMatch (pre ++ post) host := by
  induction pre with
  | nil => simp [subdomainMatch, hb]
  | cons hd tl ih =>
    obtain ⟨k', b'⟩ := hd
    cases hb' : urlHostname b' with
    | none => simpa [subdomainMatch, hb'] using ih
    | some hh =>
      by_cases he : listEndsWith host.data ('.' :: hh.data) = true <;>
        simp [subdomainMatch, hb', he, ih]

theorem basedomain_skip (k b : String) (hb : urlHostname b = none)
    (pre post : List (String × String)) (host : String) :
    baseDomainMatch (pre ++ (k, b) :: post) host = baseDomainMatch (pre ++ post) host := by
  induction pre with
  | nil => simp [baseDomainMatch, hb]
  | cons hd tl ih =>
    obtain ⟨k', b'⟩ := hd
    cases hb' : urlHostname b' with
    | none => simpa [baseDomainMatch, hb'] using ih
    | some hh =>
      by_cases he : (lastTwoLabels hh = lastTwoLabels host
          && (lastTwoLabels hh).data.contains '.') = true <;>
        simp [baseDomainMatch, hb', he, ih]

/-- C9: a registry entry whose base URL fails to parse is skipped
silently by every scanning tier — detection over a registry containing
it returns exactly what detection over the registry without it
returns, so the entry is never matched and the call never aborts. -/
theorem invalid_entry_skipped (pre post : List (String × String)) (k b : String)
    (u : ParsedUrl) (hb : urlHostname b = none) :
    detectPlatform (pre ++ (k, b) :: post) u = detectPlatform (pre ++ post) u := by
  simp only [detectPlatform]
  rw [exact_skip k b hb, subdomain_skip k b hb, basedomain_skip k b hb]

theorem invalid_entry_skipped_witness :
    detectPlatform
        ([("a", "https://a.example")] ++ ("bad", "notaurl") ::
          [("npm", "https://registry.npmjs.org")])
        ⟨"https:", "", "", "registry.npmjs.org", "", "/react", "", ""⟩ =
      detectPlatform ([("a", "https://a.example")] ++ [("npm", "https://registry.npmjs.org")])
        ⟨"https:", "", "", "registry.npmjs.org", "", "/react", "", ""⟩ :=
  invalid_entry_skipped _ _ _ _ _ (by decide)

/-! ## C5: homebrew / homebrew-api path stripping

The source performs `path.replace(/^\/[Hh]omebrew/i, "")` and
`path.replace(/^\/api/i, "")`.  These patterns are anchored string
matches, not segment matches: a path such as `/homebrewery/x` also
starts with the characters `/homebrew` and is therefore stripped to
`ery/x` (then re-normalised to `/ery/x`), although it does not begin
with a `/homebrew` segment.  Moreover the empty-or-root collapse runs
whether or not anything was stripped, so a bare `/` collapses to the
empty string.  Both effects refute the claim as stated. -/

/-- C5 is refuted at `/homebrewery/x`: the path does not begin with a
`/Homebrew` or `/homebrew` segment (case-insensitively), so the claim
says it is left unchanged, yet the rewriter returns `/ery/x`. -/
theorem homebrew_segment_claim_cex :
    strStartsWith (lowerStr "/homebrewery/x") "/homebrew/" = false ∧
      lowerStr "/homebrewery/x" ≠ "/homebrew" ∧
      adjustPathForPlatform "/homebrewery/x" "homebrew" = "/ery/x" ∧
      ("/ery/x" : String) ≠ "/homebrewery/x" := by
  decide

theorem collapse_norm (q : String) :
    (if strStartsWith (if q = "" ∨ q = "/" then "" else q) "/" = false ∧
        (if q = "" ∨ q = "/" then "" else q) ≠ "" then
      "/" ++ (if q = "" ∨ q = "/" then "" else q)
    else (if q = "" ∨ q = "/" then "" else q)) =
      (if q = "" ∨ q = "/" then ""
       else if strStartsWith q "/" then q else "/" ++ q) := by
  by_cases hq : q = "" ∨ q = "/"
  · simp [hq, strStartsWith, listStartsWith]
  · rcases not_or.mp hq with ⟨hq1, hq2⟩
    by_cases hsw : strStartsWith q "/" = true
    · simp [hq, hq1, hq2, hsw]
    · simp only [Bool.not_eq_true] at hsw
      simp [hq, hq1, hq2, hsw]

theorem collapse_norm_id (q : String)
    (hsw : strStartsWith q "/" = true ∨ q = "") :
    (if strStartsWith (if q = "" ∨ q = "/" then "" else q) "/" = false ∧
        (if q = "" ∨ q = "/" then "" else q) ≠ "" then
      "/" ++ (if q = "" ∨ q = "/" then "" else q)
    else (if q = "" ∨ q = "/" then "" else q)) = if q = "/" then "" else q := by
  by_cases hq : q = "" ∨ q = "/"
  · rcases hq with rfl | rfl <;> simp [strStartsWith, listStartsWith]
  · rcases not_or.mp hq with ⟨hq1, hq2⟩
    rcases hsw with hsw | rfl
    · simp [hq1, hq2, hsw]
    · exact absurd rfl hq1

/-- C5 (amended): for identifier `homebrew` the rewriter strips the
leading nine characters whenever they case-insensitively equal the
string `/homebrew` (an anchored prefix match, not a segment match;
first occurrence only, only at path start), and for `homebrew-api` it
strips the leading four characters whenever they case-insensitively
equal `/api`; the result collapses to the empty string when it is
empty or exactly `/` — also when nothing was stripped — and is
otherwise re-normalised to start with `/`; a path lacking the
character prefix that already starts with `/` (or is empty) is
returned unchanged except that a bare `/` collapses to empty. -/
theorem homebrew_strip_amended (p : String) :
    ((p.data.take "/homebrew".data.length).map charLower = "/homebrew".data →
      adjustPathForPlatform p "homebrew" =
        (if (⟨p.data.drop "/homebrew".data.length⟩ : String) = "" ∨
            (⟨p.data.drop "/homebrew".data.length⟩ : String) = "/" then ""
         else if strStartsWith ⟨p.data.drop "/homebrew".data.length⟩ "/" then
            (⟨p.data.drop "/homebrew".data.length⟩ : String)
         else "/" ++ (⟨p.data.drop "/homebrew".data.length⟩ : String))) ∧
    ((p.data.take "/homebrew".data.length).map charLower ≠ "/homebrew".data →
      strStartsWith p "/" = true ∨ p = "" →
      adjustPathForPlatform p "homebrew" = if p = "/" then "" else p) ∧
    ((p.data.take "/api".data.length).map charLower = "/api".data →
      adjustPathForPlatform p "homebrew-api" =
        (if (⟨p.data.drop "/api".data.length⟩ : String) = "" ∨
            (⟨p.data.drop "/api".data.length⟩ : String) = "/" then ""
         else if strStartsWith ⟨p.data.drop "/api".data.length⟩ "/" then
            (⟨p.data.drop "/api".data.length⟩ : String)
         else "/" ++ (⟨p.data.drop "/api".data.length⟩ : String))) ∧
    ((p.data.take "/api".data.length).map charLower ≠ "/api".data →
      strStartsWith p "/" = true ∨ p = "" →
      adjustPathForPlatform p "homebrew-api" = if p = "/" then "" else p) := by
  have hb_gh : ("homebrew" : String) ≠ "gh" := by decide
  have hb_api : ("homebrew" : String) ≠ "homebrew-api" := by decide
  have ha_gh : ("homebrew-api" : String) ≠ "gh" := by decide
  have ha_hb : ("homebrew-api" : String) ≠ "homebrew" := by decide
  refine ⟨?_, ?_, ?_, ?_⟩
  · intro h
    simp only [adjustPathForPlatform, stripCaseless, if_neg hb_gh, if_neg hb_api,
      if_pos rfl, if_pos h]
    exact collapse_norm _
  · intro h hsw
    simp only [adjustPathForPlatform, stripCaseless, if_neg hb_gh, if_neg hb_api,
      if_pos rfl, if_neg h]
    exact collapse_norm_id p hsw
  · intro h
    simp only [adjustPathForPlatform, stripCaseless, if_neg ha_gh, if_neg ha_hb,
      if_pos rfl, if_pos h]
    exact collapse_norm _
  · intro h hsw
    simp only [adjustPathForPlatform, stripCaseless, if_neg ha_gh, if_neg ha_hb,
      if_pos rfl, if_neg h]
    exact collapse_norm_id p hsw

theorem homebrew_strip_amended_witness :
    adjustPathForPlatform "/Homebrew/core/formula/wget.rb" "homebrew" =
        "/core/formula/wget.rb" ∧
      adjustPathForPlatform "/api/formula/wget.json" "homebrew-api" =
        "/formula/wget.json" := by
  constructor
  · have h := (homebrew_strip_amended "/Homebrew/core/formula/wget.rb").1 (by decide)
    rw [h]; decide
  · have h := (homebrew_strip_amended "/api/formula/wget.json").2.2.1 (by decide)
    rw [h]; decide

/-! ## Split/join lemmas for the blob pattern -/

theorem splitChar_ne_nil (c : Char) (l : List Char) : splitChar c l ≠ [] := by
  cases l with
  | nil => simp [splitChar]
  | cons x xs =>
    simp only [splitChar]
    split
    · simp
    · split <;> simp

theorem splitChar_cons_self (c : Char) (ys : List Char) :
    splitChar c (c :: ys) = [] :: splitChar c ys := by
  simp only [splitChar]
  cases h : splitChar c ys with
  | nil => exact absurd h (splitChar_ne_nil c ys)
  | cons r rs => simp

theorem splitChar_append (c : Char) (xs ys : List Char) (h : ∀ a ∈ xs, a ≠ c) :
    splitChar c (xs ++ c :: ys) = xs :: splitChar c ys := by
  induction xs with
  | nil => simpa using splitChar_cons_self c ys
  | cons x xs' ih =>
    have hx : x ≠ c := h x (List.mem_cons_self _ _)
    have h' : ∀ a ∈ xs', a ≠ c := fun a ha => h a (List.mem_cons_of_mem _ ha)
    rw [List.cons_append]
    simp only [splitChar]
    rw [ih h']
    simp [hx]

theorem joinSep_splitChar (c : Char) (l : List Char) :
    joinSep c (splitChar c l) = l := by
  induction l with
  | nil => rfl
  | cons x xs ih =>
    simp only [splitChar]
    cases hs : splitChar c xs with
    | nil => exact absurd hs (splitChar_ne_nil c xs)
    | cons r rs =>
      rw [hs] at ih
      by_cases hx : x = c
      · subst hx
        simp only [if_pos rfl, joinSep, List.nil_append]
        rw [ih]
      · simp only [if_neg hx]
        cases rs with
        | nil =>
          simp only [joinSep] at ih ⊢
          rw [ih]
        | cons s rs' =>
          simp only [joinSep] at ih ⊢
          rw [List.cons_append, ih]

theorem data_ne_nil_of_ne_empty (s : String) (h : s ≠ "") : s.data ≠ [] := by
  intro he
  apply h
  cases s with
  | mk d =>
    cases d with
    | nil => rfl
    | cons a as => simp at he

theorem str_append_empty (s : String) : s ++ "" = s := by
  cases s with
  | mk d =>
    apply String.ext
    show d ++ [] = d
    simp

theorem strStartsWith_of_data_cons (s : String) (h : ∃ t, s.data = '/' :: t) :
    strStartsWith s "/" = true := by
  obtain ⟨t, ht⟩ := h
  show listStartsWith s.data ['/'] = true
  rw [ht]
  simp [listStartsWith]

/-! ## C2: GitHub blob-to-raw rewriting -/

theorem matchBlob_eq (owner repo rest : String) (ho : owner ≠ "") (hr : repo ≠ "")
    (ho' : ∀ a ∈ owner.data, a ≠ '/') (hr' : ∀ a ∈ repo.data, a ≠ '/')
    (hrest : rest ≠ "") :
    matchBlob ("/" ++ owner ++ "/" ++ repo ++ "/blob/" ++ rest) =
      some (owner, repo, rest) := by
  have hdata : ("/" ++ owner ++ "/" ++ repo ++ "/blob/" ++ rest).data =
      '/' :: (owner.data ++ '/' :: (repo.data ++ '/' :: ("blob".data ++ '/' :: rest.data))) := by
    simp [String.data_append]
  have hsc : splitChar '/' ("/" ++ owner ++ "/" ++ repo ++ "/blob/" ++ rest).data =
      [] :: owner.data :: repo.data :: "blob".data :: splitChar '/' rest.data := by
    rw [hdata, splitChar_cons_self, splitChar_append _ _ _ ho',
      splitChar_append _ _ _ hr', splitChar_append _ _ _ (by decide)]
  obtain ⟨oc, ocs, hoc⟩ :=
    List.exists_cons_of_ne_nil (data_ne_nil_of_ne_empty owner ho)
  obtain ⟨rc, rcs, hrc⟩ :=
    List.exists_cons_of_ne_nil (data_ne_nil_of_ne_empty repo hr)
  have hjoin : joinSep '/' (splitChar '/' rest.data) = rest.data :=
    joinSep_splitChar _ _
  have hA : splitChar '/' rest.data ≠ [] := splitChar_ne_nil _ _
  have hB : rest.data ≠ [] := data_ne_nil_of_ne_empty rest hrest
  unfold matchBlob
  rw [hsc, hoc, hrc]
  simp [hA, hB, hjoin, ← hoc, ← hrc]

/-- C2: for identifier `gh`, a base path of the shape
`/{owner}/{repo}/blob/{rest}` — owner and repo non-empty slash-free
segments, rest non-empty — is rewritten to
`/{owner}/{repo}/raw/refs/heads/{branch}/{filePath}` where `branch` is
the first `/`-separated segment of `rest` and `filePath` is the
remaining segments joined with `/` (the trailing `/` is retained when
`filePath` is empty), while every `gh` path not matching the blob
pattern (and, like any URL-derived base path, empty or starting with
`/`) is returned unchanged. -/
theorem gh_blob_rewrite :
    (∀ owner repo rest : String, owner ≠ "" → repo ≠ "" →
      (∀ a ∈ owner.data, a ≠ '/') → (∀ a ∈ repo.data, a ≠ '/') → rest ≠ "" →
      adjustPathForPlatform ("/" ++ owner ++ "/" ++ repo ++ "/blob/" ++ rest) "gh" =
        "/" ++ owner ++ "/" ++ repo ++ "/raw/refs/heads/" ++ branchSeg rest ++ "/" ++
          fileSegs rest) ∧
    (∀ path : String, matchBlob path = none →
      strStartsWith path "/" = true ∨ path = "" →
      adjustPathForPlatform path "gh" = path) := by
  have hg1 : ("gh" : String) ≠ "homebrew" := by decide
  have hg2 : ("gh" : String) ≠ "homebrew-api" := by decide
  constructor
  · intro owner repo rest ho hr ho' hr' hrest
    have hmb := matchBlob_eq owner repo rest ho hr ho' hr' hrest
    obtain ⟨b, ts, hsplit⟩ :=
      List.exists_cons_of_ne_nil (splitChar_ne_nil '/' rest.data)
    have hbr : branchSeg rest = ⟨b⟩ := by simp [branchSeg, hsplit]
    have hfs : fileSegs rest = ⟨joinSep '/' ts⟩ := by simp [fileSegs, hsplit]
    rw [hbr, hfs]
    by_cases hts : ts = []
    · subst hts
      rw [show (⟨joinSep '/' ([] : List (List Char))⟩ : String) = "" from rfl,
        str_append_empty]
      have hsw : strStartsWith
          ("/" ++ owner ++ "/" ++ repo ++ "/raw/refs/heads/" ++ (⟨b⟩ : String) ++ "/")
          "/" = true :=
        strStartsWith_of_data_cons _ ⟨_, rfl⟩
      simp only [adjustPathForPlatform, hmb, hsplit, if_neg hg1, if_neg hg2]
      simp [hsw]
    · have hsw : strStartsWith
          ("/" ++ owner ++ "/" ++ repo ++ "/raw/refs/heads/" ++ (⟨b⟩ : String) ++ "/"
            ++ (⟨joinSep '/' ts⟩ : String)) "/" = true :=
        strStartsWith_of_data_cons _ ⟨_, rfl⟩
      simp only [adjustPathForPlatform, hmb, hsplit, if_neg hg1, if_neg hg2]
      simp [hts, hsw]
  · intro path hnone hstart
    simp only [adjustPathForPlatform, hnone, if_neg hg1, if_neg hg2]
    rcases hstart with hs | rfl
    · simp [hs]
    · simp [strStartsWith, listStartsWith]

theorem gh_blob_rewrite_witness :
    adjustPathForPlatform
        ("/" ++ "owner" ++ "/" ++ "repo" ++ "/blob/" ++ "main/path/to/file.txt") "gh" =
      "/" ++ "owner" ++ "/" ++ "repo" ++ "/raw/refs/heads/" ++
        branchSeg "main/path/to/file.txt" ++ "/" ++ fileSegs "main/path/to/file.txt" ∧
    branchSeg "main/path/to/file.txt" = "main" ∧
    fileSegs "main/path/to/file.txt" = "path/to/file.txt" ∧
    adjustPathForPlatform "/owner/repo/releases/tag/v1" "gh" =
      "/owner/repo/releases/tag/v1" := by
  refine ⟨gh_blob_rewrite.1 "owner" "repo" "main/path/to/file.txt"
    (by decide) (by decide) (by decide) (by decide) (by decide), by decide, by decide,
    gh_blob_rewrite.2 "/owner/repo/releases/tag/v1" (by decide) (Or.inl (by decide))⟩

end Xuc
